import Mathlib

/-!
Verification of the pod5-rs core against its specification.

This file gives a shallow embedding of the parts of the repository that the
verified properties talk about:

* the `svb16` crate (crates `src/svb16/src/lib.rs`): the VBZ signal codec
  pipeline delta -> zig-zag -> stream-vbyte-16 -> outer compressor;
* the POD5 `Writer` (`src/pod5/src/writer.rs`, `src/src/writer.rs`): envelope
  layout, section markers, table regions, padding, descriptors, footer trailer;
* the POD5 `Reader` and footer locator (`src/src/reader.rs`,
  `src/pod5-format/src/footer/mod.rs`).

Bytes are modelled as natural numbers (values written by the code are always
below 256), u16 values as naturals below 65536, and i16 values as integers in
the interval from -32768 to 32767.  Machine wrap-around is explicit, with
`% 65536` at the points where the Rust code wraps.  External collaborators are
modelled as parameters: the outer block compressor (zstd) as a pair of
functions assumed to round-trip, the Arrow IPC writer as the arbitrary byte
string a table region body may be, the flatbuffers builder as an arbitrary
function from descriptors to bytes.  Rust panics are modelled as a distinct
outcome, separate from returned errors.
-/

namespace Pod5

/-- Outcome of running a fallible Rust function: a returned value, a returned
error, or a panic. -/
inductive Outcome (α : Type) where
  | ok (v : α)
  | err (e : String)
  | panicked
  deriving DecidableEq, Repr

/-- Whether the outcome is a returned error (not a value and not a panic). -/
def Outcome.isErr {α : Type} : Outcome α → Bool
  | .err _ => true
  | _ => false

/-- The external outer block compressor (zstd) as consumed by the codec:
`compress` is `zstd::bulk::compress(_, 1)` and `decompress` is
`zstd::decode_all`, which can reject its input. -/
structure OuterCodec where
  compress : List Nat → List Nat
  decompress : List Nat → Except String (List Nat)

/-- A trivially correct instance of the outer compressor, used to build
concrete inputs. -/
def idOuter : OuterCodec :=
  { compress := fun b => b, decompress := fun b => .ok b }

/-- The outer compressor contract from the spec: decompression inverts
compression. -/
def OuterRoundTrip (c : OuterCodec) : Prop :=
  ∀ b, c.decompress (c.compress b) = .ok b

namespace Svb16

/-- Number of control bytes, from `num_ctrl_bytes` in `src/svb16/src/lib.rs`:
`(count >> 3) + (((count & 7) + 7) >> 3)`. -/
def numCtrlBytes (count : Nat) : Nat :=
  (count >>> 3) + (((count &&& 7) + 7) >>> 3)

/-- Groups of up to eight values, as produced by `Itertools::chunks(8)` in
`Encoder::encode`.  Structural recursion on a fuel argument equal to the
length so that the function evaluates by kernel reduction. -/
def chunks8F : Nat → List Nat → List (List Nat)
  | 0, _ => []
  | _ + 1, [] => []
  | fuel + 1, u :: us => (u :: us).take 8 :: chunks8F fuel ((u :: us).drop 8)

/-- Groups of up to eight values of the input. -/
def chunks8 (us : List Nat) : List (List Nat) :=
  chunks8F us.length us

/-- Data bytes for one value, from the branch in `Encoder::encode`: a value
above `u8::MAX` is written as its two little-endian bytes
(`x.to_le_bytes()`), otherwise as the single byte `x as u8`. -/
def enc1 (u : Nat) : List Nat :=
  if 255 < u then [u % 256, u / 256] else [u]

/-- The eight control bits of one group, least significant first: bit `k` is
set exactly when the `k`-th value needs two bytes; slots past the end of the
group keep the initial `false` of `ctrl_byte = 0u8`. -/
def ctrlBits (chunk : List Nat) : List Bool :=
  chunk.map (fun u => decide (255 < u)) ++ List.replicate (8 - chunk.length) false

/-- Byte value of a list of bits, least significant first (the `bitvec`
`Lsb0` view used by the encoder). -/
def byteOfBits (bs : List Bool) : Nat :=
  bs.foldr (fun b acc => (if b then 1 else 0) + 2 * acc) 0

/-- Control byte of one group of values. -/
def ctrlByte (chunk : List Nat) : Nat :=
  byteOfBits (ctrlBits chunk)

/-- The eight bits of a byte, least significant first (the `bitvec` `Lsb0`
view used by the decoder). -/
def bitsOfByteLsb (b : Nat) : List Bool :=
  [b.testBit 0, b.testBit 1, b.testBit 2, b.testBit 3,
   b.testBit 4, b.testBit 5, b.testBit 6, b.testBit 7]

/-- The stream-vbyte-16 buffer from `Encoder::encode`: one control byte per
group pushed to `ctrl_bytes`, the data bytes of each group appended to
`data_bytes` in order, and the final buffer the control block followed by the
data block. -/
def svbEncode (us : List Nat) : List Nat :=
  (chunks8 us).map ctrlByte ++ (chunks8 us).flatMap (fun c => c.flatMap enc1)

/-- The loop of `DecodeIter::next` collected `samples` times: each control
bit consumes two little-endian data bytes when set, one byte otherwise;
running out of control bits ends the iterator early; running out of data
bytes is an out-of-bounds slice access, a panic, modelled as `none`. -/
def decodeIterGo : Nat → List Bool → List Nat → Option (List Nat)
  | 0, _, _ => some []
  | _ + 1, [], _ => some []
  | n + 1, true :: bs, d0 :: d1 :: rest =>
    (decodeIterGo n bs rest).map (fun vs => (d0 + 256 * d1) :: vs)
  | _ + 1, true :: _, _ => none
  | n + 1, false :: bs, d0 :: rest =>
    (decodeIterGo n bs rest).map (fun vs => d0 :: vs)
  | _ + 1, false :: _, [] => none

/-- Decoding of the decompressed inner buffer, from `DecodeIter::from_compressed`:
`split_data` splits at `num_ctrl_bytes count` (`split_at` panics when the
buffer is shorter than that, modelled as `none`), then the iterator runs over
the control bits and data bytes. -/
def decodeInner (inner : List Nat) (count : Nat) : Option (List Nat) :=
  if numCtrlBytes count ≤ inner.length then
    decodeIterGo count
      ((inner.take (numCtrlBytes count)).flatMap bitsOfByteLsb)
      (inner.drop (numCtrlBytes count))
  else none

/-- Total data bytes demanded by the first `n` control bits. -/
def requiredData : Nat → List Bool → Nat
  | 0, _ => 0
  | _ + 1, [] => 0
  | n + 1, b :: bs => (if b then 2 else 1) + requiredData n bs

end Svb16

/-- Reduction of an integer to the i16 range, the wrap-around of Rust
`i16` arithmetic. -/
def wrapI16 (z : Int) : Int :=
  (z + 32768) % 65536 - 32768

/-- Zig-zag encoding of an i16, modelled from the spec formula
`u = (d << 1) ^ (d >> 15)` of the external `zigzag` crate: the left shift
wraps in 16 bits and the arithmetic right shift by 15 is all-ones exactly for
negative inputs. -/
def zigzagEncode (d : Int) : Nat :=
  ((2 * d) % 65536).toNat ^^^ (if d < 0 then 65535 else 0)

/-- Reinterpretation of a 16-bit pattern as a signed i16. -/
def toI16 (n : Nat) : Int :=
  if n % 65536 < 32768 then (n % 65536 : Int) else (n % 65536 : Int) - 65536

/-- Zig-zag decoding to an i16, modelled from the spec formula
`d = (u >> 1) ^ -(u & 1)`: in u16 arithmetic `-(u & 1)` is all-ones exactly
for odd `u`, and the result is reinterpreted as signed. -/
def zigzagDecode (u : Nat) : Int :=
  toI16 ((u >>> 1) ^^^ (if u % 2 = 1 then 65535 else 0))

/-- Delta encoding from the external `delta_encoding` crate as specified:
`d[0] = x[0]`, `d[i] = x[i] - x[i-1]`, wrapping in i16. -/
def deltasFrom (prev : Int) : List Int → List Int
  | [] => []
  | y :: ys => wrapI16 (y - prev) :: deltasFrom y ys

/-- The `deltas()` adapter applied to a whole sequence. -/
def deltas (xs : List Int) : List Int :=
  deltasFrom 0 xs

/-- Delta decoding (`original()`): running sum with wrapping i16 addition. -/
def originalFrom (prev : Int) : List Int → List Int
  | [] => []
  | d :: ds => wrapI16 (prev + d) :: originalFrom (wrapI16 (prev + d)) ds

/-- The `original()` adapter applied to a whole sequence. -/
def original (ds : List Int) : List Int :=
  originalFrom 0 ds

/-- The inner (pre-outer-compression) byte buffer of `encode` for a sample
sequence: deltas, zig-zag, then stream-vbyte-16. -/
def innerBytes (xs : List Int) : List Nat :=
  Svb16.svbEncode ((deltas xs).map zigzagEncode)

/-- VBZ `encode` from `src/svb16/src/lib.rs`: delta, zig-zag,
stream-vbyte-16, then the outer compressor at level 1. -/
def encode (c : OuterCodec) (xs : List Int) : List Nat :=
  c.compress (innerBytes xs)

/-- VBZ `decode` from `src/svb16/src/lib.rs`: outer decompression (whose
rejection is returned as an error through `?`), then the stream-vbyte-16
iterator (whose out-of-range accesses panic), then zig-zag decoding and the
running sum. -/
def decode (c : OuterCodec) (blob : List Nat) (count : Nat) : Outcome (List Int) :=
  match c.decompress blob with
  | .error e => .err e
  | .ok inner =>
    match Svb16.decodeInner inner count with
    | none => .panicked
    | some us => .ok (original (us.map zigzagDecode))

namespace Svb16

theorem numCtrlBytes_eq_ceil (n : Nat) : numCtrlBytes n = (n + 7) / 8 := by
  have h1 : n >>> 3 = n / 8 := by
    rw [Nat.shiftRight_eq_div_pow]
  have h2 : n &&& 7 = n % 8 := by
    have h := Nat.and_pow_two_sub_one_eq_mod n 3
    norm_num at h
    exact h
  have h3 : (n % 8 + 7) >>> 3 = (n % 8 + 7) / 8 := by
    rw [Nat.shiftRight_eq_div_pow]
  unfold numCtrlBytes
  rw [h1, h2, h3]
  omega

theorem chunks8F_length : ∀ (fuel : Nat) (us : List Nat), us.length ≤ fuel →
    (chunks8F fuel us).length = (us.length + 7) / 8 := by
  intro fuel
  induction fuel with
  | zero =>
    intro us h
    have : us = [] := List.eq_nil_of_length_eq_zero (by omega)
    subst this
    simp [chunks8F]
  | succ f ih =>
    intro us h
    cases us with
    | nil => simp [chunks8F]
    | cons u t =>
      have hdrop : ((u :: t).drop 8).length = (u :: t).length - 8 := by
        simp
      have hrec := ih ((u :: t).drop 8) (by simp at h ⊢; omega)
      simp only [chunks8F, List.length_cons] at hrec ⊢
      rw [hrec]
      simp only [List.length_drop, List.length_cons]
      omega

theorem chunks8F_data : ∀ (fuel : Nat) (us : List Nat), us.length ≤ fuel →
    (chunks8F fuel us).flatMap (fun c => c.flatMap enc1) = us.flatMap enc1 := by
  intro fuel
  induction fuel with
  | zero =>
    intro us h
    have : us = [] := List.eq_nil_of_length_eq_zero (by omega)
    subst this
    simp [chunks8F]
  | succ f ih =>
    intro us h
    cases us with
    | nil => simp [chunks8F]
    | cons u t =>
      have hrec := ih ((u :: t).drop 8)
        (by simp only [List.length_drop, List.length_cons] at h ⊢; omega)
      simp only [chunks8F, List.flatMap_cons, hrec]
      rw [← List.flatMap_append, List.take_append_drop]
      simp

theorem byteOfBits_bits :
    ∀ b0 b1 b2 b3 b4 b5 b6 b7 : Bool,
      bitsOfByteLsb (byteOfBits [b0, b1, b2, b3, b4, b5, b6, b7])
        = [b0, b1, b2, b3, b4, b5, b6, b7] := by
  decide

theorem bits_roundtrip (bs : List Bool) (h : bs.length = 8) :
    bitsOfByteLsb (byteOfBits bs) = bs := by
  rcases bs with _ | ⟨b0, _ | ⟨b1, _ | ⟨b2, _ | ⟨b3, _ | ⟨b4, _ | ⟨b5, _ | ⟨b6, _ | ⟨b7, rest⟩⟩⟩⟩⟩⟩⟩⟩ <;>
    simp only [List.length_cons, List.length_nil] at h <;> try omega
  have hr : rest = [] := List.eq_nil_of_length_eq_zero (by omega)
  subst hr
  exact byteOfBits_bits b0 b1 b2 b3 b4 b5 b6 b7

theorem ctrlBits_length (chunk : List Nat) (h : chunk.length ≤ 8) :
    (ctrlBits chunk).length = 8 := by
  simp [ctrlBits]
  omega

theorem bitsOfByteLsb_ctrlByte (chunk : List Nat) (h : chunk.length ≤ 8) :
    bitsOfByteLsb (ctrlByte chunk) = ctrlBits chunk :=
  bits_roundtrip _ (ctrlBits_length chunk h)

theorem chunks8F_bits : ∀ (fuel : Nat) (us : List Nat), us.length ≤ fuel →
    ∃ k, ((chunks8F fuel us).map ctrlByte).flatMap bitsOfByteLsb
      = us.map (fun u => decide (255 < u)) ++ List.replicate k false := by
  intro fuel
  induction fuel with
  | zero =>
    intro us h
    have : us = [] := List.eq_nil_of_length_eq_zero (by omega)
    subst this
    exact ⟨0, by simp [chunks8F]⟩
  | succ f ih =>
    intro us h
    cases us with
    | nil => exact ⟨0, by simp [chunks8F]⟩
    | cons u t =>
      obtain ⟨k, hk⟩ := ih ((u :: t).drop 8)
        (by simp only [List.length_drop, List.length_cons] at h ⊢; omega)
      have htlen : ((u :: t).take 8).length ≤ 8 := List.length_take_le 8 _
      by_cases hlen : (u :: t).length ≤ 8
      · refine ⟨8 - (u :: t).length, ?_⟩
        have hd : (u :: t).drop 8 = [] := by
          apply List.eq_nil_of_length_eq_zero
          simp only [List.length_drop]
          omega
        have ht : (u :: t).take 8 = u :: t := List.take_of_length_le (by omega)
        simp only [chunks8F, List.map_cons, List.flatMap_cons, hd]
        rw [bitsOfByteLsb_ctrlByte _ htlen, ht]
        cases f with
        | zero => simp [chunks8F, ctrlBits]
        | succ f2 => simp [chunks8F, ctrlBits]
      · refine ⟨k, ?_⟩
        have ht8 : ((u :: t).take 8).length = 8 :=
          List.length_take_of_le (by simp only [List.length_cons] at hlen ⊢; omega)
        simp only [chunks8F, List.map_cons, List.flatMap_cons]
        rw [bitsOfByteLsb_ctrlByte _ htlen, hk, ctrlBits, ht8, Nat.sub_self]
        rw [List.replicate_zero, List.append_nil, ← List.append_assoc,
          ← List.map_append, List.take_append_drop]
        simp

theorem decodeIterGo_spec : ∀ (us : List Nat) (n : Nat) (junkB : List Bool) (junkD : List Nat),
    n ≤ us.length →
    decodeIterGo n (us.map (fun u => decide (255 < u)) ++ junkB) (us.flatMap enc1 ++ junkD)
      = some (us.take n) := by
  intro us
  induction us with
  | nil =>
    intro n junkB junkD h
    have : n = 0 := by simpa using h
    subst this
    simp [decodeIterGo]
  | cons u t ih =>
    intro n junkB junkD h
    cases n with
    | zero => simp [decodeIterGo]
    | succ m =>
      have hm : m ≤ t.length := by
        simp only [List.length_cons] at h
        omega
      by_cases hu : 255 < u
      · have henc : enc1 u = [u % 256, u / 256] := by simp [enc1, hu]
        rw [List.map_cons, List.flatMap_cons, henc, decide_eq_true hu]
        simp only [List.cons_append, List.nil_append, List.append_assoc]
        simp only [decodeIterGo]
        rw [ih m junkB junkD hm]
        have hv : u % 256 + 256 * (u / 256) = u := by omega
        simp [hv, List.take_succ_cons]
      · have henc : enc1 u = [u] := by simp [enc1, hu]
        rw [List.map_cons, List.flatMap_cons, henc, decide_eq_false hu]
        simp only [List.cons_append, List.nil_append, List.append_assoc]
        simp only [decodeIterGo]
        rw [ih m junkB junkD hm]
        simp [List.take_succ_cons]

theorem decodeIterGo_short : ∀ (n : Nat) (bits : List Bool) (data : List Nat),
    data.length < requiredData n bits → decodeIterGo n bits data = none := by
  intro n
  induction n with
  | zero => intro bits data h; simp [requiredData] at h
  | succ m ih =>
    intro bits data h
    cases bits with
    | nil => simp [requiredData] at h
    | cons b bs =>
      cases b with
      | true =>
        simp only [requiredData, if_true] at h
        cases data with
        | nil => simp [decodeIterGo]
        | cons d0 rest =>
          cases rest with
          | nil => simp [decodeIterGo]
          | cons d1 rest2 =>
            simp only [decodeIterGo]
            rw [ih bs rest2
              (by simp only [List.length_cons] at h ⊢; omega)]
            rfl
      | false =>
        simp only [requiredData, Bool.false_eq_true, if_false] at h
        cases data with
        | nil => simp [decodeIterGo]
        | cons d0 rest =>
          simp only [decodeIterGo]
          rw [ih bs rest
            (by simp only [List.length_cons] at h ⊢; omega)]
          rfl

end Svb16

theorem xor_comp16 (x : Nat) (hx : x < 65536) : x ^^^ 65535 = 65535 - x := by
  apply Nat.eq_of_testBit_eq
  intro i
  rw [Nat.testBit_xor]
  have h16 : (65535 : Nat) = 2 ^ 16 - 1 := by norm_num
  have hx16 : x < 2 ^ 16 := by norm_num; omega
  by_cases hi : i < 16
  · rw [h16, Nat.testBit_two_pow_sub_one]
    have hs : 2 ^ 16 - 1 - x = 2 ^ 16 - (x + 1) := by omega
    rw [← h16]
    have hgoal : 65535 - x = 2 ^ 16 - (x + 1) := by norm_num; omega
    rw [hgoal, Nat.testBit_two_pow_sub_succ hx16]
    simp [hi]
  · have hpow : 2 ^ 16 ≤ 2 ^ i := Nat.pow_le_pow_right (by norm_num) (by omega)
    have hxb : x.testBit i = false := Nat.testBit_lt_two_pow (by omega)
    have hyb : (65535 - x).testBit i = false := Nat.testBit_lt_two_pow (by omega)
    have h5 : (65535 : Nat).testBit i = false := by
      rw [h16, Nat.testBit_two_pow_sub_one]
      simp [hi]
    simp [hxb, hyb, h5]

theorem zigzag_roundtrip (d : Int) (h1 : -32768 ≤ d) (h2 : d < 32768) :
    zigzagDecode (zigzagEncode d) = d := by
  by_cases hd : d < 0
  · have hk0 : 0 ≤ -d := by omega
    obtain ⟨k, hk⟩ : ∃ k : Nat, (k : Int) = -d := ⟨(-d).toNat, Int.toNat_of_nonneg hk0⟩
    have hk1 : 1 ≤ k := by omega
    have hk2 : k ≤ 32768 := by omega
    have hmod : (2 * d) % 65536 = 2 * d + 65536 := by omega
    unfold zigzagEncode
    rw [hmod, if_pos hd]
    have htn : (2 * d + 65536).toNat = 65536 - 2 * k := by omega
    rw [htn, xor_comp16 _ (by omega)]
    have hu : 65535 - (65536 - 2 * k) = 2 * k - 1 := by omega
    rw [hu]
    unfold zigzagDecode
    have hodd : (2 * k - 1) % 2 = 1 := by omega
    rw [if_pos hodd]
    have hshift : (2 * k - 1) >>> 1 = k - 1 := by
      rw [Nat.shiftRight_eq_div_pow]
      have : (2 : Nat) ^ 1 = 2 := by norm_num
      rw [this]
      omega
    rw [hshift, xor_comp16 _ (by omega)]
    unfold toI16
    have hmod2 : (65535 - (k - 1)) % 65536 = 65536 - k := by omega
    rw [hmod2, if_neg (by omega)]
    omega
  · have hk0 : 0 ≤ d := by omega
    obtain ⟨k, hk⟩ : ∃ k : Nat, (k : Int) = d := ⟨d.toNat, Int.toNat_of_nonneg hk0⟩
    have hk2 : k < 32768 := by omega
    have hmod : (2 * d) % 65536 = 2 * d := by omega
    unfold zigzagEncode
    rw [hmod, if_neg hd]
    have htn : (2 * d).toNat = 2 * k := by omega
    rw [htn]
    have hxor0 : 2 * k ^^^ 0 = 2 * k := Nat.xor_zero _
    rw [hxor0]
    unfold zigzagDecode
    have heven : ¬(2 * k) % 2 = 1 := by omega
    rw [if_neg heven]
    have hshift : (2 * k) >>> 1 = k := by
      rw [Nat.shiftRight_eq_div_pow]
      have : (2 : Nat) ^ 1 = 2 := by norm_num
      rw [this]
      omega
    rw [hshift, Nat.xor_zero]
    unfold toI16
    have hmod2 : k % 65536 = k := by omega
    rw [hmod2, if_pos (by omega)]
    omega

theorem wrapI16_lb (z : Int) : -32768 ≤ wrapI16 z := by
  unfold wrapI16
  omega

theorem wrapI16_ub (z : Int) : wrapI16 z < 32768 := by
  unfold wrapI16
  omega

theorem deltasFrom_length (xs : List Int) : ∀ prev, (deltasFrom prev xs).length = xs.length := by
  induction xs with
  | nil => intro prev; rfl
  | cons y ys ih => intro prev; simp [deltasFrom, ih]

theorem deltasFrom_range (xs : List Int) :
    ∀ prev, ∀ v ∈ deltasFrom prev xs, -32768 ≤ v ∧ v < 32768 := by
  induction xs with
  | nil => intro prev v hv; simp [deltasFrom] at hv
  | cons y ys ih =>
    intro prev v hv
    simp only [deltasFrom, List.mem_cons] at hv
    rcases hv with hv | hv
    · subst hv
      exact ⟨wrapI16_lb _, wrapI16_ub _⟩
    · exact ih y v hv

theorem deltasFrom_take (xs : List Int) :
    ∀ prev n, (deltasFrom prev xs).take n = deltasFrom prev (xs.take n) := by
  induction xs with
  | nil => intro prev n; simp [deltasFrom]
  | cons y ys ih =>
    intro prev n
    cases n with
    | zero => simp [deltasFrom]
    | succ m => simp [deltasFrom, List.take_succ_cons, ih y m]

theorem originalFrom_deltasFrom (xs : List Int) :
    ∀ prev, (∀ v ∈ xs, -32768 ≤ v ∧ v < 32768) →
      originalFrom prev (deltasFrom prev xs) = xs := by
  induction xs with
  | nil => intro prev _; rfl
  | cons y ys ih =>
    intro prev h
    have hy := h y (by simp)
    have hstep : wrapI16 (prev + wrapI16 (y - prev)) = y := by
      unfold wrapI16
      omega
    simp only [deltasFrom, originalFrom, hstep]
    rw [ih y (fun v hv => h v (by simp [hv]))]

theorem map_zigzag_roundtrip (ds : List Int) (h : ∀ v ∈ ds, -32768 ≤ v ∧ v < 32768) :
    (ds.map zigzagEncode).map zigzagDecode = ds := by
  induction ds with
  | nil => rfl
  | cons d ds ih =>
    have hd := h d (by simp)
    simp only [List.map_cons, zigzag_roundtrip d hd.1 hd.2]
    rw [ih (fun v hv => h v (by simp [hv]))]

/-- Main round-trip lemma: decoding an encoded sequence with any requested
count `n` that is at most the input length and demands the same number of
control bytes recovers the first `n` input samples. -/
theorem decode_encode_take (c : OuterCodec) (hc : OuterRoundTrip c) (xs : List Int)
    (hx : ∀ v ∈ xs, -32768 ≤ v ∧ v < 32768) (n : Nat) (hn : n ≤ xs.length)
    (hceil : (n + 7) / 8 = (xs.length + 7) / 8) :
    decode c (encode c xs) n = .ok (xs.take n) := by
  unfold decode encode
  rw [hc]
  have hus : innerBytes xs = Svb16.svbEncode ((deltas xs).map zigzagEncode) := rfl
  generalize hgen : (deltas xs).map zigzagEncode = us at hus
  have hlen : us.length = xs.length := by
    rw [← hgen, List.length_map, deltas, deltasFrom_length]
  have hfuel : us.length ≤ us.length := le_refl _
  have hctrl_len : ((Svb16.chunks8 us).map Svb16.ctrlByte).length = (us.length + 7) / 8 := by
    rw [List.length_map, Svb16.chunks8, Svb16.chunks8F_length us.length us hfuel]
  have hm : Svb16.numCtrlBytes n = ((Svb16.chunks8 us).map Svb16.ctrlByte).length := by
    rw [Svb16.numCtrlBytes_eq_ceil, hctrl_len, hlen, hceil]
  have hdata : (Svb16.chunks8 us).flatMap (fun ch => ch.flatMap Svb16.enc1)
      = us.flatMap Svb16.enc1 :=
    Svb16.chunks8F_data us.length us hfuel
  obtain ⟨k, hbits⟩ := Svb16.chunks8F_bits us.length us hfuel
  have htake : (Svb16.svbEncode us).take (Svb16.numCtrlBytes n)
      = (Svb16.chunks8 us).map Svb16.ctrlByte := by
    rw [hm]
    exact List.take_left _ _
  have hdrop : (Svb16.svbEncode us).drop (Svb16.numCtrlBytes n)
      = us.flatMap Svb16.enc1 := by
    rw [hm]
    unfold Svb16.svbEncode
    rw [List.drop_left, hdata]
  have hcond : Svb16.numCtrlBytes n ≤ (Svb16.svbEncode us).length := by
    rw [hm]
    unfold Svb16.svbEncode
    rw [List.length_append]
    omega
  have hbits2 : ((Svb16.chunks8 us).map Svb16.ctrlByte).flatMap Svb16.bitsOfByteLsb
      = us.map (fun u => decide (255 < u)) ++ List.replicate k false := by
    rw [Svb16.chunks8]
    exact hbits
  have hiter := Svb16.decodeIterGo_spec us n (List.replicate k false) [] (by omega)
  rw [List.append_nil] at hiter
  have hinner : Svb16.decodeInner (Svb16.svbEncode us) n = some (us.take n) := by
    unfold Svb16.decodeInner
    rw [if_pos hcond, htake, hdrop, hbits2]
    exact hiter
  rw [hus]
  change (match Svb16.decodeInner (Svb16.svbEncode us) n with
    | none => Outcome.panicked
    | some vs => Outcome.ok (original (vs.map zigzagDecode))) = Outcome.ok (xs.take n)
  rw [hinner]
  have htk : us.take n = ((deltas xs).take n).map zigzagEncode := by
    rw [← hgen, List.map_take]
  rw [htk]
  have hdn : (deltas xs).take n = deltasFrom 0 (xs.take n) := by
    rw [deltas, deltasFrom_take]
  rw [hdn]
  change Outcome.ok
      (original (((deltasFrom 0 (xs.take n)).map zigzagEncode).map zigzagDecode))
    = Outcome.ok (xs.take n)
  rw [map_zigzag_roundtrip _ (deltasFrom_range (xs.take n) 0)]
  rw [show original (deltasFrom 0 (xs.take n)) = xs.take n from
    originalFrom_deltasFrom (xs.take n) 0 (fun v hv => hx v (List.mem_of_mem_take hv))]

theorem getD_bitsOfByteLsb (b : Nat) (k : Fin 8) :
    (Svb16.bitsOfByteLsb b).getD k false = b.testBit k := by
  fin_cases k <;> rfl

theorem ctrlBits_getD (chunk : List Nat) (k : Nat) :
    (Svb16.ctrlBits chunk).getD k false = decide (256 ≤ chunk.getD k 0) := by
  unfold Svb16.ctrlBits
  rw [List.getD_eq_getElem?_getD, List.getD_eq_getElem?_getD, List.getElem?_append]
  by_cases hlt : k < chunk.length
  · rw [if_pos (by simpa using hlt), List.getElem?_map,
      List.getElem?_eq_getElem hlt]
    have hiff : (255 < chunk[k]) = (256 ≤ chunk[k]) := propext (by omega)
    simp [hiff]
  · rw [if_neg (by simpa using hlt), List.getElem?_replicate]
    rw [List.getElem?_eq_none (by omega)]
    have h0 : ¬256 ≤ (0 : Nat) := by omega
    simp only [List.length_map, Option.getD_none, h0, decide_eq_false h0]
    split <;> rfl

/-- Claim C1.  For every finite sequence of 16-bit signed integers (including
the empty sequence), decoding the encoded blob with the original length
recovers exactly the original sequence, for any outer compressor satisfying
its round-trip contract. -/
theorem c1_decode_encode_roundtrip (c : OuterCodec) (hc : OuterRoundTrip c)
    (xs : List Int) (hx : ∀ v ∈ xs, -32768 ≤ v ∧ v < 32768) :
    decode c (encode c xs) xs.length = .ok xs := by
  have h := decode_encode_take c hc xs hx xs.length (le_refl _) rfl
  rwa [List.take_length] at h

/-- Witness for C1: the concrete five-sample signal of the test suite
round-trips through the identity outer compressor. -/
theorem c1_witness :
    decode idOuter (encode idOuter [10, 1234, 20, 2345, 30]) 5
      = .ok [10, 1234, 20, 2345, 30] :=
  c1_decode_encode_roundtrip idOuter (fun _ => rfl) [10, 1234, 20, 2345, 30] (by decide)

/-- Claim C3, counterexample to the claim as stated: when the decompressed
inner buffer is too short for the control bytes the code panics (the
`split_at` call in `split_data` is out of range) instead of returning a
`CodecError`-style error. -/
theorem c3_counterexample :
    decode idOuter [] 1 = .panicked ∧ (decode idOuter [] 1).isErr = false := by
  decide

/-- Claim C3, amended.  `decode` surfaces the outer decompressor's rejection
as a returned error; but an inner buffer shorter than `ceil(n/8)` control
bytes, or shorter than the data bytes demanded by the control bits, makes
`decode` panic (as its documentation warns) rather than return an error. -/
theorem c3_decode_failure_modes :
    (∀ (c : OuterCodec) (blob : List Nat) (n : Nat) (e : String),
      c.decompress blob = .error e → decode c blob n = .err e)
    ∧ (∀ (c : OuterCodec) (blob : List Nat) (n : Nat) (inner : List Nat),
      c.decompress blob = .ok inner → inner.length < Svb16.numCtrlBytes n →
        decode c blob n = .panicked)
    ∧ (∀ (c : OuterCodec) (blob : List Nat) (n : Nat) (inner : List Nat),
      c.decompress blob = .ok inner → Svb16.numCtrlBytes n ≤ inner.length →
      inner.length - Svb16.numCtrlBytes n <
        Svb16.requiredData n
          ((inner.take (Svb16.numCtrlBytes n)).flatMap Svb16.bitsOfByteLsb) →
        decode c blob n = .panicked) := by
  refine ⟨?_, ?_, ?_⟩
  · intro c blob n e h
    unfold decode
    rw [h]
  · intro c blob n inner h hlt
    unfold decode
    rw [h]
    have hnone : Svb16.decodeInner inner n = none := by
      unfold Svb16.decodeInner
      rw [if_neg (by omega)]
    change (match Svb16.decodeInner inner n with
      | none => Outcome.panicked
      | some vs => Outcome.ok (original (vs.map zigzagDecode))) = Outcome.panicked
    rw [hnone]
  · intro c blob n inner h hle hreq
    unfold decode
    rw [h]
    have hnone : Svb16.decodeInner inner n = none := by
      unfold Svb16.decodeInner
      rw [if_pos hle]
      apply Svb16.decodeIterGo_short
      rw [List.length_drop]
      exact hreq
    change (match Svb16.decodeInner inner n with
      | none => Outcome.panicked
      | some vs => Outcome.ok (original (vs.map zigzagDecode))) = Outcome.panicked
    rw [hnone]

/-- Witness for C3: an empty inner buffer with one requested sample panics,
and an outer rejection is surfaced as an error. -/
theorem c3_witness :
    decode idOuter [] 1 = .panicked ∧
    decode ⟨fun b => b, fun _ => .error "zstd"⟩ [7] 4 = .err "zstd" :=
  ⟨c3_decode_failure_modes.2.1 idOuter [] 1 [] rfl (by decide),
   c3_decode_failure_modes.1 ⟨fun b => b, fun _ => .error "zstd"⟩ [7] 4 "zstd" rfl⟩

/-- Claim C8, counterexample to the concrete example in the claim: for the
input samples `[10, 1234, 20, 2345, 30]` the inner buffer of `encode` begins
with the control byte `0b00011110` (the four large zig-zagged deltas occupy
bits 1 to 4), not `0b10101010`. -/
theorem c8_counterexample :
    (innerBytes [10, 1234, 20, 2345, 30]).head? = some 30 ∧ (30 : Nat) ≠ 0b10101010 := by
  decide

/-- Claim C8, amended.  The stream-vbyte-16 stage writes one control byte per
group of up to eight zig-zagged values, all control bytes as one contiguous
block followed by all data bytes in order; bit `k` (LSB-first) of a group's
control byte is set exactly when the `k`-th value is at least 256, such a
value occupying its two little-endian bytes and a small value one byte equal
to itself; and for the input `[10, 1234, 20, 2345, 30]` the inner buffer
begins with the control byte `0b00011110`. -/
theorem c8_svb16_layout :
    (∀ us : List Nat, Svb16.svbEncode us
        = (Svb16.chunks8 us).map Svb16.ctrlByte ++ us.flatMap Svb16.enc1)
    ∧ (∀ chunk : List Nat, chunk.length ≤ 8 → ∀ k : Fin 8,
        (Svb16.ctrlByte chunk).testBit k = decide (256 ≤ chunk.getD k 0))
    ∧ (∀ u : Nat, 256 ≤ u → Svb16.enc1 u = [u % 256, u / 256])
    ∧ (∀ u : Nat, u < 256 → Svb16.enc1 u = [u])
    ∧ (innerBytes [10, 1234, 20, 2345, 30]).head? = some 0b00011110 := by
  refine ⟨?_, ?_, ?_, ?_, by decide⟩
  · intro us
    unfold Svb16.svbEncode Svb16.chunks8
    rw [Svb16.chunks8F_data us.length us (le_refl _)]
  · intro chunk h k
    have h1 : (Svb16.ctrlByte chunk).testBit k
        = (Svb16.bitsOfByteLsb (Svb16.ctrlByte chunk)).getD k false :=
      (getD_bitsOfByteLsb _ k).symm
    rw [h1, Svb16.bitsOfByteLsb_ctrlByte chunk h]
    exact ctrlBits_getD chunk k
  · intro u hu
    have h255 : 255 < u := by omega
    simp [Svb16.enc1, h255]
  · intro u hu
    have h255 : ¬255 < u := by omega
    simp [Svb16.enc1, h255]

/-- Witness for C8: the bit characterization at the concrete group
`[10, 1234]` and slot 1, and the one-byte case at value 20. -/
theorem c8_witness :
    (Svb16.ctrlByte [10, 1234]).testBit (1 : Fin 8) = decide (256 ≤ [10, 1234].getD 1 0)
    ∧ Svb16.enc1 1234 = [1234 % 256, 1234 / 256]
    ∧ Svb16.enc1 20 = [20] :=
  ⟨c8_svb16_layout.2.1 [10, 1234] (by decide) 1,
   c8_svb16_layout.2.2.1 1234 (by decide),
   c8_svb16_layout.2.2.2.1 20 (by decide)⟩

/-- Claim C9.  `num_ctrl_bytes(n)`, computed by the bit expression
`(n >> 3) + (((n & 7) + 7) >> 3)`, equals `ceil(n/8)`, and the decoder splits
the decompressed inner buffer at exactly that many leading control bytes. -/
theorem c9_num_ctrl_bytes_ceil :
    (∀ n : Nat, Svb16.numCtrlBytes n = (n + 7) / 8)
    ∧ (∀ (n : Nat) (inner : List Nat), Svb16.numCtrlBytes n ≤ inner.length →
        Svb16.decodeInner inner n
          = Svb16.decodeIterGo n
              ((inner.take ((n + 7) / 8)).flatMap Svb16.bitsOfByteLsb)
              (inner.drop ((n + 7) / 8))) := by
  refine ⟨Svb16.numCtrlBytes_eq_ceil, ?_⟩
  intro n inner h
  unfold Svb16.decodeInner
  rw [if_pos h, Svb16.numCtrlBytes_eq_ceil]

/-- Witness for C9: the split of the eight-byte test buffer at one control
byte for five samples. -/
theorem c9_witness :
    Svb16.decodeInner [170, 10, 210, 4, 20, 41, 9, 30] 5
      = Svb16.decodeIterGo 5
          (([170, 10, 210, 4, 20, 41, 9, 30].take ((5 + 7) / 8)).flatMap Svb16.bitsOfByteLsb)
          ([170, 10, 210, 4, 20, 41, 9, 30].drop ((5 + 7) / 8)) :=
  c9_num_ctrl_bytes_ceil.2 5 [170, 10, 210, 4, 20, 41, 9, 30] (by decide)

/-- Claim C10, counterexample to the claim as stated: for nine samples
decoded with count 1, the decoder splits the inner buffer at
`num_ctrl_bytes(1) = 1` control byte even though the encoder wrote two, so
the second control byte is consumed as a data byte and the returned value is
`-1`, not the first sample `1`. -/
theorem c10_counterexample :
    decode idOuter (encode idOuter [1, 0, 0, 0, 0, 0, 0, 0, 300]) 1 = .ok [-1]
    ∧ ([-1] : List Int) ≠ [1] := by
  decide

/-- Claim C10, amended.  For every sequence `x` and every `n ≤ x.len()` that
demands the same number of control bytes as the full length (in particular
whenever `ceil(n/8) = ceil(x.len()/8)`), `decode(encode(x), n)` succeeds and
returns the first `n` elements, ignoring the remaining control bits and data
bytes; for smaller `n` the split point moves and the decoder misreads
control bytes as data. -/
theorem c10_decode_prefix (c : OuterCodec) (hc : OuterRoundTrip c) (xs : List Int)
    (hx : ∀ v ∈ xs, -32768 ≤ v ∧ v < 32768) (n : Nat) (hn : n ≤ xs.length)
    (hceil : (n + 7) / 8 = (xs.length + 7) / 8) :
    decode c (encode c xs) n = .ok (xs.take n) :=
  decode_encode_take c hc xs hx n hn hceil

/-- Witness for C10: the five-sample signal decoded with count 3 yields its
first three samples. -/
theorem c10_witness :
    decode idOuter (encode idOuter [10, 1234, 20, 2345, 30]) 3 = .ok [10, 1234, 20] :=
  c10_decode_prefix idOuter (fun _ => rfl) [10, 1234, 20, 2345, 30]
    (by decide) 3 (by decide) (by decide)

/-- The eight-byte POD5 file signature `FILE_SIGNATURE`:
`0x8B 'P' 'O' 'D' 0x0D 0x0A 0x1A 0x0A`. -/
def FILE_SIGNATURE : List Nat := [0x8b, 0x50, 0x4f, 0x44, 0x0d, 0x0a, 0x1a, 0x0a]

/-- The eight-byte footer magic `FOOTER_MAGIC`: `'F' 'O' 'O' 'T' 'E' 'R' 0 0`. -/
def FOOTER_MAGIC : List Nat := [0x46, 0x4f, 0x4f, 0x54, 0x45, 0x52, 0x00, 0x00]

/-- Errors of the read path relevant to the claims: `Pod5Error` with the
`SignatureFailure(site)` variant (site strings as in the source) and a
collapsed I/O error for failing reads and seeks. -/
inductive Pod5Error where
  | signatureFailure (site : String)
  | ioError
  deriving DecidableEq, Repr

instance {ε α : Type} [DecidableEq ε] [DecidableEq α] : DecidableEq (Except ε α) :=
  fun a b =>
    match a, b with
    | .ok x, .ok y =>
      if h : x = y then .isTrue (by rw [h]) else .isFalse (by intro hc; cases hc; exact h rfl)
    | .error x, .error y =>
      if h : x = y then .isTrue (by rw [h]) else .isFalse (by intro hc; cases hc; exact h rfl)
    | .ok _, .error _ => .isFalse (by intro hc; cases hc)
    | .error _, .ok _ => .isFalse (by intro hc; cases hc)

/-- Little-endian unsigned reading of a byte list. -/
def leU64 (bs : List Nat) : Nat :=
  bs.foldr (fun b acc => b + 256 * acc) 0

/-- Little-endian signed 64-bit reading of an eight-byte list
(`i64::from_le_bytes`): two's complement. -/
def leI64 (bs : List Nat) : Int :=
  if leU64 bs < 2 ^ 63 then (leU64 bs : Int) else (leU64 bs : Int) - 2 ^ 64

/-- The footer locator `ParsedFooter::read_footer`: it first rewinds the
reader (so the `pos` argument, the reader position before the call, is
discarded), seeks to `End(-(SIG_LEN + 16 + 8)) = End(-32)`, reads eight bytes
as a little-endian signed 64-bit `flen`, seeks back `flen` further and reads
`flen` bytes as the footer body.  A seek before the start of the file is an
I/O error; a negative `flen` makes the subsequent allocation and exact read
of `flen as usize` bytes fail. -/
def readFooter (_pos : Nat) (file : List Nat) : Except Pod5Error (List Nat) :=
  if file.length < 32 then .error .ioError
  else
    let flen : Int := leI64 ((file.drop (file.length - 32)).take 8)
    if flen < 0 then .error .ioError
    else if (file.length : Int) - 32 < flen then .error .ioError
    else .ok ((file.drop (file.length - 32 - flen.toNat)).take flen.toNat)

/-- The envelope opener `Reader::from_reader`: read the first eight bytes and
compare with the signature (`SignatureFailure("Start")` on mismatch), seek to
`End(-8)` and compare again (`SignatureFailure("End")` on mismatch), then
locate the footer; the resulting reader pairs the byte source with the footer
body, and table iterators can only be built from such a reader. -/
def fromReader (file : List Nat) : Except Pod5Error (List Nat × List Nat) :=
  if file.length < 8 then .error .ioError
  else if file.take 8 = FILE_SIGNATURE then
    if file.drop (file.length - 8) = FILE_SIGNATURE then
      match readFooter file.length file with
      | .error e => .error e
      | .ok body => .ok (file, body)
    else .error (.signatureFailure "End")
  else .error (.signatureFailure "Start")

/-- Claim C6, counterexample to the claim as stated: a file with a valid
leading signature and a corrupt trailing signature is rejected with site
string `"End"` (capitalized, as written in the source), not `"end"`. -/
theorem c6_counterexample :
    fromReader (FILE_SIGNATURE ++ List.replicate 24 0)
        ≠ .error (.signatureFailure "end")
    ∧ fromReader (FILE_SIGNATURE ++ List.replicate 24 0)
        = .error (.signatureFailure "End") := by
  decide

/-- Claim C6, amended.  For every byte source whose leading eight bytes equal
the POD5 signature but whose trailing eight bytes do not, opening the
envelope fails with `SignatureFailure("End")` and no reader (hence no table
iterator) can be produced; if the leading eight bytes do not equal the
signature, opening fails with `SignatureFailure("Start")`. -/
theorem c6_signature_checks :
    (∀ file : List Nat, 8 ≤ file.length → file.take 8 = FILE_SIGNATURE →
      file.drop (file.length - 8) ≠ FILE_SIGNATURE →
      fromReader file = .error (.signatureFailure "End")
      ∧ ∀ r, fromReader file ≠ .ok r)
    ∧ (∀ file : List Nat, 8 ≤ file.length → file.take 8 ≠ FILE_SIGNATURE →
      fromReader file = .error (.signatureFailure "Start")) := by
  constructor
  · intro file hlen hstart hend
    have heq : fromReader file = .error (.signatureFailure "End") := by
      unfold fromReader
      rw [if_neg (by omega), if_pos hstart, if_neg hend]
    exact ⟨heq, fun r hr => by rw [heq] at hr; exact Except.noConfusion hr⟩
  · intro file hlen hstart
    unfold fromReader
    rw [if_neg (by omega), if_neg hstart]

/-- Witness for C6: a concrete 32-byte source with a good start signature and
zeroed tail fails with site `"End"`, and one with a zeroed head fails with
site `"Start"`. -/
theorem c6_witness :
    fromReader (FILE_SIGNATURE ++ List.replicate 24 0)
      = .error (.signatureFailure "End")
    ∧ fromReader (List.replicate 32 0) = .error (.signatureFailure "Start") :=
  ⟨(c6_signature_checks.1 (FILE_SIGNATURE ++ List.replicate 24 0)
      (by decide) (by decide) (by decide)).1,
   c6_signature_checks.2 (List.replicate 32 0) (by decide) (by decide)⟩

/-- Claim C7.  For every well-formed file, the reader locates the footer by
reading the eight bytes at offset `file-size - (SIG_LEN + SM_LEN + 8) =
file-size - 32` as a little-endian signed 64-bit integer FLEN, then reading
exactly FLEN bytes that end immediately before that length field, regardless
of the reader position before the call. -/
theorem c7_footer_location (file : List Nat) (flen : Int)
    (h32 : 32 ≤ file.length)
    (hf : flen = leI64 ((file.drop (file.length - 32)).take 8))
    (h0 : 0 ≤ flen) (hle : flen ≤ (file.length : Int) - 32) :
    ∀ pos pos2 : Nat,
      readFooter pos file
        = .ok ((file.take (file.length - 32)).drop (file.length - 32 - flen.toNat))
      ∧ readFooter pos file = readFooter pos2 file := by
  intro pos pos2
  refine ⟨?_, rfl⟩
  unfold readFooter
  rw [if_neg (by omega)]
  simp only [← hf]
  rw [if_neg (by omega), if_neg (by omega)]
  have hft : flen.toNat ≤ file.length - 32 := by omega
  rw [List.drop_take]
  have harith : file.length - 32 - (file.length - 32 - flen.toNat) = flen.toNat := by
    omega
  rw [harith]

/-- Witness for C7: a 35-byte file whose footer body is `[9, 9, 9]`, with
length field 3, a 16-byte marker and the trailing signature. -/
theorem c7_witness :
    readFooter 0 ([9, 9, 9] ++ [3, 0, 0, 0, 0, 0, 0, 0]
        ++ List.replicate 16 7 ++ FILE_SIGNATURE)
      = .ok [9, 9, 9] := by
  have h := (c7_footer_location
    ([9, 9, 9] ++ [3, 0, 0, 0, 0, 0, 0, 0] ++ List.replicate 16 7 ++ FILE_SIGNATURE)
    3 (by decide) (by decide) (by decide) (by decide)) 0 0
  exact h.1.trans (by decide)

/-- Content types of the flatbuffers footer schema (`ContentType`). -/
inductive ContentType where
  | signalTable
  | readsTable
  | runInfoTable
  | otherIndex
  deriving DecidableEq, Repr

/-- A footer table descriptor (`TableInfo` in pod5-footer): offset and length
are signed 64-bit values in the source. -/
structure TableInfo where
  offset : Int
  length : Int
  contentType : ContentType
  deriving DecidableEq, Repr

/-- The write-path error variant relevant to the claims
(`WriteError::ContentTypeAlreadyWritten`). -/
inductive WriteError where
  | contentTypeAlreadyWritten (ct : ContentType)
  deriving DecidableEq, Repr

/-- State of `Writer<W>` over an in-memory sink: `sink` is the byte string
written so far (all writes append at the end), `position` is the `position`
field of the struct, `sectionMarker` and `fileIdentifier` are the two UUIDs
drawn at construction (random in the source, hence arbitrary 16-byte values
here), `tables` the accumulated descriptors, and `contentsWrittens` the
`HashSet` of recorded content types. -/
structure WriterState where
  position : Nat
  sink : List Nat
  sectionMarker : List Nat
  fileIdentifier : List Nat
  tables : List TableInfo
  contentsWrittens : List ContentType
  deriving DecidableEq, Repr

/-- `Writer::new` followed by `init` (the `from_writer` path): rewind, write
the signature, write the section marker, record the stream position. -/
def initWriter (sm fid : List Nat) : WriterState :=
  { position := (FILE_SIGNATURE ++ sm).length
    sink := FILE_SIGNATURE ++ sm
    sectionMarker := sm
    fileIdentifier := fid
    tables := []
    contentsWrittens := [] }

/-- The bytes the external Arrow IPC `FileWriter` emits for one table are an
arbitrary byte string `body` appended through the `Write` impl of the
Writer. -/
def writeBody (w : WriterState) (body : List Nat) : WriterState :=
  { w with sink := w.sink ++ body }

/-- `Writer::end_table`: read the stream position, write `8 - position % 8`
padding zeros (eight bytes when already aligned), write the stored section
marker, push a descriptor whose offset is the recorded region start and whose
length is the pre-padding position minus that start, then set `position` to
the new stream position. -/
def endTable (w : WriterState) (ct : ContentType) : WriterState :=
  let newPosition := w.sink.length
  let padding := 8 - newPosition % 8
  let sink2 := w.sink ++ List.replicate padding 0 ++ w.sectionMarker
  { w with
    sink := sink2
    position := sink2.length
    tables := w.tables
      ++ [⟨(w.position : Int), (newPosition : Int) - (w.position : Int), ct⟩] }

/-- One completed table write through a guard that received at least one
batch: the IPC region bytes, then `end_table` on guard finish. -/
def writeTableU (w : WriterState) (ct : ContentType) (body : List Nat) : WriterState :=
  endTable (writeBody w body) ct

/-- `Writer::with_guard` (and `_write_tables_with` in the draft crate): the
duplicate check runs before any byte is written; on success the closure
writes the region and the guard's `finish` ends the table.  Faithful to the
source, nothing is ever inserted into `contents_writtens`. -/
def withGuard (w : WriterState) (ct : ContentType) (body : List Nat) :
    Except WriteError WriterState :=
  if ct ≠ ContentType.otherIndex ∧ ct ∈ w.contentsWrittens then
    .error (.contentTypeAlreadyWritten ct)
  else
    .ok (writeTableU w ct body)

/-- Little-endian bytes of a signed 64-bit value (`i64::to_le_bytes`). -/
def leI64Bytes (v : Int) : List Nat :=
  (List.range 8).map (fun i => ((v % (2 ^ 64 : Int)).toNat >>> (8 * i)) % 256)

/-- `Writer::_finish`: footer magic, flatbuffers footer (the external builder
is the arbitrary function `buildFooter` of the descriptor list), the footer
length as little-endian signed 64-bit, section marker, signature. -/
def finishWriter (buildFooter : List TableInfo → List Nat) (w : WriterState) :
    WriterState :=
  { w with sink := w.sink ++ FOOTER_MAGIC ++ buildFooter w.tables
      ++ leI64Bytes ((buildFooter w.tables).length : Int)
      ++ w.sectionMarker ++ FILE_SIGNATURE }

/-- A sequence of completed table writes. -/
def runTables (w : WriterState) : List (ContentType × List Nat) → WriterState
  | [] => w
  | (ct, body) :: rest => runTables (writeTableU w ct body) rest

/-- The bytes of the table regions emitted from stream position `pos`: each
region is its body, the padding to the next 8-byte boundary, and the section
marker `sm`. -/
def regionsBytes (sm : List Nat) : Nat → List (ContentType × List Nat) → List Nat
  | _, [] => []
  | pos, (_, body) :: rest =>
    body ++ List.replicate (8 - (pos + body.length) % 8) 0 ++ sm
      ++ regionsBytes sm
          (pos + body.length + (8 - (pos + body.length) % 8) + sm.length) rest

theorem writeTableU_sink (w : WriterState) (ct : ContentType) (body : List Nat) :
    (writeTableU w ct body).sink
      = w.sink ++ body
        ++ List.replicate (8 - (w.sink.length + body.length) % 8) 0
        ++ w.sectionMarker := by
  unfold writeTableU endTable writeBody
  simp [List.append_assoc, List.length_append]

theorem writeTableU_sectionMarker (w : WriterState) (ct : ContentType) (body : List Nat) :
    (writeTableU w ct body).sectionMarker = w.sectionMarker := rfl

theorem runTables_sectionMarker :
    ∀ (ts : List (ContentType × List Nat)) (w : WriterState),
      (runTables w ts).sectionMarker = w.sectionMarker := by
  intro ts
  induction ts with
  | nil => intro w; rfl
  | cons p rest ih =>
    intro w
    cases p with
    | mk ct body => simpa [runTables] using ih (writeTableU w ct body)

theorem runTables_sink :
    ∀ (ts : List (ContentType × List Nat)) (w : WriterState),
      (runTables w ts).sink
        = w.sink ++ regionsBytes w.sectionMarker w.sink.length ts := by
  intro ts
  induction ts with
  | nil => intro w; simp [runTables, regionsBytes]
  | cons p rest ih =>
    intro w
    cases p with
    | mk ct body =>
      rw [show runTables w ((ct, body) :: rest) = runTables (writeTableU w ct body) rest
        from rfl]
      rw [ih (writeTableU w ct body), writeTableU_sink, writeTableU_sectionMarker]
      have hlen : (writeTableU w ct body).sink.length
          = w.sink.length + body.length
            + (8 - (w.sink.length + body.length) % 8) + w.sectionMarker.length := by
        rw [writeTableU_sink]
        simp [List.length_append]
        omega
      rw [writeTableU_sink] at hlen
      rw [hlen, regionsBytes]
      simp [List.append_assoc]

/-- Claim C5.  A Writer stores one section marker at construction; the
initial emission after the signature, the emission after every table region,
and the trailer emission all write those same stored bytes, so every section
marker of the finished file is the single value `sm`. -/
theorem c5_section_marker_identity (bf : List TableInfo → List Nat)
    (sm fid : List Nat) (ts : List (ContentType × List Nat)) :
    (finishWriter bf (runTables (initWriter sm fid) ts)).sink
      = FILE_SIGNATURE ++ sm
        ++ regionsBytes sm (FILE_SIGNATURE ++ sm).length ts
        ++ FOOTER_MAGIC
        ++ bf (runTables (initWriter sm fid) ts).tables
        ++ leI64Bytes ((bf (runTables (initWriter sm fid) ts).tables).length : Int)
        ++ sm ++ FILE_SIGNATURE := by
  unfold finishWriter
  rw [runTables_sink ts (initWriter sm fid)]
  rw [show (initWriter sm fid).sink = FILE_SIGNATURE ++ sm from rfl]
  rw [show (initWriter sm fid).sectionMarker = sm from rfl]
  rw [runTables_sectionMarker ts (initWriter sm fid)]
  rw [show (initWriter sm fid).sectionMarker = sm from rfl]

/-- Claim C4, counterexample to the claim as stated: a region whose IPC body
is the single byte `[0]` gets the descriptor `{offset 24, length 1}`, whose
end offset `offset + length = 25` is not a multiple of 8 (the padding bytes
are written to the file but excluded from the recorded length). -/
theorem c4_counterexample :
    ((writeTableU (initWriter (List.replicate 16 0) []) ContentType.runInfoTable [0]).tables.map
        (fun t => t.offset + t.length)) = [25]
    ∧ ¬((25 : Int) % 8 = 0) := by
  decide

/-- Claim C4, amended.  Every table region is zero-padded so that the file
offset where its trailing section marker starts is a multiple of 8, but the
descriptor records the region start and the pre-padding length, so the
descriptor end `offset + length` is the unpadded region end and need not be
a multiple of 8. -/
theorem c4_region_padding (w : WriterState) (ct : ContentType) (body : List Nat) :
    (writeTableU w ct body).tables
      = w.tables ++ [⟨(w.position : Int),
          ((w.sink.length + body.length : Nat) : Int) - (w.position : Int), ct⟩]
    ∧ (w.sink.length + body.length + (8 - (w.sink.length + body.length) % 8)) % 8 = 0
    ∧ (writeTableU w ct body).sink
      = w.sink ++ body
        ++ List.replicate (8 - (w.sink.length + body.length) % 8) 0
        ++ w.sectionMarker := by
  refine ⟨?_, by omega, writeTableU_sink w ct body⟩
  unfold writeTableU endTable writeBody
  simp [List.length_append]

/-- Claim C2, code-bug evidence.  `contents_writtens` is never inserted into:
no operation of the writer ever records a written content type, so the
duplicate-open check of `with_guard` can never fire, and a second write of
the Signal table after a completed first one returns `Ok`, not
`ContentTypeAlreadyWritten` — contradicting both the claim and the code's
own doc comment and doctest. -/
theorem c2_contents_never_recorded :
    (∀ (w : WriterState) (ct : ContentType) (body : List Nat),
      (writeTableU w ct body).contentsWrittens = w.contentsWrittens)
    ∧ withGuard (initWriter (List.replicate 16 0) []) ContentType.signalTable [1]
        = .ok (writeTableU (initWriter (List.replicate 16 0) [])
            ContentType.signalTable [1])
    ∧ withGuard
        (writeTableU (initWriter (List.replicate 16 0) []) ContentType.signalTable [1])
        ContentType.signalTable [2]
        = .ok (writeTableU
            (writeTableU (initWriter (List.replicate 16 0) []) ContentType.signalTable [1])
            ContentType.signalTable [2]) := by
  refine ⟨fun w ct body => rfl, by decide, by decide⟩

end Pod5
